import Mathlib

/-!
Verification of the dashboard script `streamlit_app.py` of the
`execucao-orcamentaria` repository.

The script downloads a yearly ZIP from the transparency portal, extracts a
CSV member, probes separator/encoding combinations to read it, normalizes
Brazilian-format monetary and percentage strings to numbers, filters rows by
user-selected column values, aggregates metrics per dimension, and offers a
CSV export of the filtered table.

Text is modelled at the character-list level (`List Char`): the relevant
Python `str` operations (`replace`, `strip`, `lower`, `endswith`, substring
membership) are reimplemented on `List Char`, method by method, so that the
theorems below can be evaluated by the kernel.  Machine floats of the source
are modelled by `ℚ`; pandas `NaN` is modelled by `Option`.
-/

namespace Orc

/-! ## Character-level models of the Python string methods used -/

/-- Model of Python `str.lower` for the character range appearing in the data
(ASCII letters and the Latin-1 uppercase letters such as `Ç`, `Ã`, `É`). -/
def pyLower (c : Char) : Char :=
  if 65 ≤ c.toNat ∧ c.toNat ≤ 90 then Char.ofNat (c.toNat + 32)
  else if 192 ≤ c.toNat ∧ c.toNat ≤ 222 ∧ c.toNat ≠ 215 then Char.ofNat (c.toNat + 32)
  else c

/-- Model of Python `str.lower` on a whole string. -/
def lowerStr (cs : List Char) : List Char := cs.map pyLower

/-- Characters stripped by Python `str.strip()` (whitespace, including the
no-break space `\xa0`). -/
def pySpace (c : Char) : Bool :=
  c == ' ' || c == '\t' || c == '\n' || c == '\r' || c == '\x0b' || c == '\x0c' ||
    c == '\xa0'

/-- Model of Python `str.strip()`: drop leading and trailing whitespace. -/
def stripChars (cs : List Char) : List Char :=
  ((cs.dropWhile pySpace).reverse.dropWhile pySpace).reverse

/-- Does `s` start with `pat`?  (Model of Python `str.startswith`.) -/
def listStartsWith : List Char → List Char → Bool
  | [], _ => true
  | _ :: _, [] => false
  | p :: ps, c :: cs => p == c && listStartsWith ps cs

/-- Does `s` end with `pat`?  (Model of Python `str.endswith`.) -/
def listEndsWith (s pat : List Char) : Bool :=
  listStartsWith pat.reverse s.reverse

/-- Does `s` contain `pat` as a contiguous substring?  (Model of the Python
`pat in s` test on strings.) -/
def containsSeq (pat : List Char) : List Char → Bool
  | [] => listStartsWith pat []
  | c :: cs => listStartsWith pat (c :: cs) || containsSeq pat cs

/-- Model of Python `str.replace("R$", "")`: delete every non-overlapping
occurrence of `R$`, scanning left to right. -/
def replaceRS : List Char → List Char
  | [] => []
  | 'R' :: '$' :: rest => replaceRS rest
  | c :: rest => c :: replaceRS rest

/-! ## Model of `pd.to_numeric(..., errors="coerce")` on one cell

`to_numeric` is split into a purely syntactic layer (`parseNumeral`, which
recognises an optionally signed plain decimal literal and is kernel
decidable) and a semantic layer (`ratOfNumeral`).  The model covers the
plain decimal literals produced by the cleaning pipelines below; a string
outside that language coerces to null (`none`), never to an error. -/

/-- Digits of a decimal literal: sign, integer part, fractional part and the
number of fractional digits. -/
structure Numeral where
  neg : Bool
  intPart : Nat
  fracPart : Nat
  fracLen : Nat
deriving DecidableEq

/-- Value of a digit list read in base 10. -/
def digitsVal (ds : List Char) : Nat :=
  ds.foldl (fun a c => a * 10 + (c.toNat - 48)) 0

/-- Recognise `digits`, `digits.digits`, `digits.` or `.digits` (at least one
digit overall), after the sign has been taken off. -/
def parseNumeralCore (neg : Bool) (rest : List Char) : Option Numeral :=
  let ip := rest.takeWhile Char.isDigit
  let rest2 := rest.dropWhile Char.isDigit
  match rest2 with
  | [] => if ip.isEmpty then none else some ⟨neg, digitsVal ip, 0, 0⟩
  | '.' :: fp =>
    if fp.all Char.isDigit && !(ip.isEmpty && fp.isEmpty) then
      some ⟨neg, digitsVal ip, digitsVal fp, fp.length⟩
    else none
  | _ => none

/-- Recognise an optionally signed plain decimal literal. -/
def parseNumeral : List Char → Option Numeral
  | '-' :: r => parseNumeralCore true r
  | '+' :: r => parseNumeralCore false r
  | cs => parseNumeralCore false cs

/-- Rational value of a recognised decimal literal. -/
def ratOfNumeral (n : Numeral) : ℚ :=
  (if n.neg then -1 else 1) * ((n.intPart : ℚ) + (n.fracPart : ℚ) / (10 : ℚ) ^ n.fracLen)

/-- Model of `pd.to_numeric(x, errors="coerce")` on a single cleaned cell:
an unparseable string becomes `none` rather than an error. -/
def to_numeric (cs : List Char) : Option ℚ :=
  (parseNumeral cs).map ratOfNumeral

/-! ## `parse_brl_number_series` (source lines 101–111) -/

/-- The cleaning chain of `parse_brl_number_series`, applied to one cell, in
source order: drop `\xa0`, drop `R$`, drop spaces, drop thousands dots,
turn the decimal comma into a dot, strip. -/
def brlClean (s : String) : List Char :=
  let x0 := s.toList.filter (fun c => c != '\xa0')
  let x1 := replaceRS x0
  let x2 := x1.filter (fun c => c != ' ')
  let x3 := x2.filter (fun c => c != '.')
  let x4 := x3.map (fun c => if c = ',' then '.' else c)
  stripChars x4

/-- One cell of `parse_brl_number_series`: clean then coerce to a number. -/
def parse_brl_number (s : String) : Option ℚ :=
  to_numeric (brlClean s)

/-- `parse_brl_number_series` applied elementwise to a column of cells. -/
def parse_brl_number_series (l : List String) : List (Option ℚ) :=
  l.map parse_brl_number

/-! ## `parse_percent_series` (source lines 113–126) -/

/-- The cleaning chain of `parse_percent_series` on one cell, in source
order: drop `\xa0`, drop `%`, drop spaces, drop thousands dots, turn the
decimal comma into a dot, strip. -/
def pctClean (s : String) : List Char :=
  let x0 := s.toList.filter (fun c => c != '\xa0')
  let x1 := x0.filter (fun c => c != '%')
  let x2 := x1.filter (fun c => c != ' ')
  let x3 := x2.filter (fun c => c != '.')
  let x4 := x3.map (fun c => if c = ',' then '.' else c)
  stripChars x4

/-- One cell of `parse_percent_series` before the scale heuristic. -/
def parse_percent_cell (s : String) : Option ℚ :=
  to_numeric (pctClean s)

/-- `parse_percent_series`: coerce every cell, then, if at least one value
parsed and the maximum parsed value is at most `1.5`, multiply every parsed
value by `100`. -/
def parse_percent_series (l : List String) : List (Option ℚ) :=
  let out := l.map parse_percent_cell
  match out.reduceOption with
  | [] => out
  | v :: vs =>
    if vs.foldl max v ≤ (1.5 : ℚ) then out.map (Option.map (· * 100)) else out

/-! ## `baixar_zip` (source lines 23–32)

The HTTP layer is modelled as a function from attempt index to response.
`baixar_zip` issues exactly one `requests.get` (attempt `0`), calls
`raise_for_status`, and returns the body; the second component counts the
requests performed. -/

/-- An HTTP response: status code and body bytes. -/
structure Response where
  status : Nat
  content : List Nat
deriving DecidableEq

/-- Model of `requests.Response.raise_for_status`: raise on a 4xx/5xx code. -/
def raise_for_status (r : Response) : Except Nat Unit :=
  if 400 ≤ r.status then .error r.status else .ok ()

/-- Model of `baixar_zip`: one GET, `raise_for_status`, return the content.
The `Nat` component is the number of requests issued. -/
def baixar_zip (server : Nat → Response) : Except Nat (List Nat) × Nat :=
  let r := server 0
  match raise_for_status r with
  | .error c => (.error c, 1)
  | .ok _ => (.ok r.content, 1)

/-! ## `extrair_csv_bytes` (source lines 38–68)

A ZIP archive is modelled as its member list (name and content bytes); the
modification-time bookkeeping of the source is orthogonal to member
selection and is elided. -/

/-- One member of the downloaded ZIP archive. -/
structure ZipEntry where
  name : String
  content : List Nat
deriving DecidableEq

/-- The `n.lower().endswith(".csv")` test of the source. -/
def isCsvName (n : String) : Bool :=
  listEndsWith (lowerStr n.toList) ".csv".toList

/-- Model of the member selection of `extrair_csv_bytes`: prefer the member
named `csv_name`; otherwise take the first member whose lowercased name ends
in `.csv`; with no such member, fail as the source does. -/
def extrair_csv_bytes (entries : List ZipEntry) (csv_name : String) :
    Except String (List Nat × String) :=
  let names := entries.map ZipEntry.name
  let chosen? :=
    if csv_name ∈ names then some csv_name
    else
      match names.filter isCsvName with
      | [] => none
      | c :: _ => some c
  match chosen? with
  | none => .error "Não encontrei CSV no ZIP."
  | some chosen =>
    match entries.find? (fun e => e.name == chosen) with
    | some e => .ok (e.content, chosen)
    | none => .error "KeyError"

/-- The expected CSV member name built at source line 244. -/
def csv_name_expected (ano : Nat) : String :=
  toString ano ++ "_OrcamentoDespesa.csv"

/-! ## `ler_csv` (source lines 71–86)

`pd.read_csv` is abstracted into a parameter `parse`, so that the retry
structure of `ler_csv` can be verified once for every parser; a concrete
instance is given for the round-trip claim below. -/

/-- The two encodings probed by `ler_csv`. -/
inductive Encoding
  | utf8sig
  | latin1
deriving DecidableEq

/-- One separator/encoding combination probed by `ler_csv`. -/
structure Attempt where
  sep : Char
  encoding : Encoding
deriving DecidableEq

/-- The fixed probe list of `ler_csv`, in source order. -/
def attempts : List Attempt :=
  [⟨';', .utf8sig⟩, ⟨';', .latin1⟩, ⟨',', .utf8sig⟩, ⟨',', .latin1⟩]

/-- Rendering of the `last_err` variable in the final error message
(`None` when no attempt was made, as in the Python f-string). -/
def lastErrStr : Option String → String
  | none => "None"
  | some e => e

/-- The attempt loop of `ler_csv`: return the first successful parse,
remembering the last error; after the last attempt, fail with a message
naming the last error. -/
def lerCsvGo {α : Type} (parse : Attempt → Except String α) :
    List Attempt → Option String → Except String α
  | [], lastErr => .error ("Falha ao ler CSV. Último erro: " ++ lastErrStr lastErr)
  | a :: rest, _lastErr =>
    match parse a with
    | .ok df => .ok df
    | .error e => lerCsvGo parse rest (some e)

/-- Model of `ler_csv`: probe the fixed attempt list in order. -/
def ler_csv {α : Type} (parse : Attempt → Except String α) : Except String α :=
  lerCsvGo parse attempts none

/-! ## CSV text model (export at source lines 596–603, parse at 71–86)

A parsed table is a header line plus rows of cells.  `to_csv` models
`df.to_csv(index=False)` for cells free of separator, quote and newline
characters (pandas then writes no quoting); `read_csv` models
`pd.read_csv(sep=...)`: blank lines are skipped, a row with more fields than
the header is a parser error, a short row is padded.  Both probed encodings
decode the UTF-8 bytes of the texts considered here to the same character
sequence, so decoding is the identity in this model. -/

/-- A parsed table: header cells and rows of cells. -/
structure Table where
  header : List (List Char)
  rows : List (List (List Char))
deriving DecidableEq

/-- Join cells with a separator character (model of `str.join`). -/
def joinSep (sep : Char) : List (List Char) → List Char
  | [] => []
  | [x] => x
  | x :: y :: rest => x ++ sep :: joinSep sep (y :: rest)

/-- Split at every occurrence of a separator character (model of
`str.split`). -/
def splitSep (sep : Char) : List Char → List (List Char)
  | [] => [[]]
  | c :: cs =>
    match splitSep sep cs with
    | [] => [[]]
    | r :: rs => if c = sep then [] :: r :: rs else (c :: r) :: rs

/-- The lines written by `df.to_csv(index=False)`: header first, one line
per row, cells joined by commas. -/
def csvLines (t : Table) : List (List Char) :=
  (t.header :: t.rows).map (joinSep ',')

/-- Model of `df.to_csv(index=False).encode("utf-8")`: newline-joined lines
with a trailing newline. -/
def to_csv (t : Table) : List Char :=
  joinSep '\n' (csvLines t) ++ ['\n']

/-- Pad a short row with empty cells, as `pd.read_csv` pads with `NaN`. -/
def padRow (w : Nat) (r : List (List Char)) : List (List Char) :=
  r ++ List.replicate (w - r.length) []

/-- Model of `pd.read_csv(sep=...)` on decoded text: skip blank lines, fail
on an empty input or on a row with more fields than the header. -/
def read_csv (sep : Char) (s : List Char) : Except String Table :=
  match (splitSep '\n' s).filter (fun l => !l.isEmpty) with
  | [] => .error "EmptyDataError"
  | h :: rest =>
    let header := splitSep sep h
    let rowsSplit := rest.map (splitSep sep)
    if rowsSplit.all (fun r => r.length ≤ header.length) then
      .ok ⟨header, rowsSplit.map (padRow header.length)⟩
    else .error "ParserError"

/-- One probe attempt of `ler_csv` instantiated with the `read_csv` model. -/
def decodeAttempt (s : List Char) (a : Attempt) : Except String Table :=
  read_csv a.sep s

/-- `ler_csv` applied to concrete CSV text through the `read_csv` model. -/
def ler_csv_df (s : List Char) : Except String Table :=
  ler_csv (decodeAttempt s)

/-- Cells for which the `to_csv` model is exact: nonempty and free of the
two probed separators, of newlines and hence of any quoting. -/
def cleanCell (c : List Char) : Prop :=
  c ≠ [] ∧ ',' ∉ c ∧ ';' ∉ c ∧ '\n' ∉ c

instance (c : List Char) : Decidable (cleanCell c) := by
  unfold cleanCell; infer_instance

/-- A table whose header is nonempty, whose rows all have the header width
and whose cells are all clean. -/
def cleanTable (t : Table) : Prop :=
  t.header ≠ [] ∧ (∀ c ∈ t.header, cleanCell c) ∧
    ∀ r ∈ t.rows, r.length = t.header.length ∧ ∀ c ∈ r, cleanCell c

instance (t : Table) : Decidable (cleanTable t) := by
  unfold cleanTable; infer_instance

/-! ## `filtrar_df` (source lines 128–133) -/

/-- A cell value of the loaded DataFrame: a string, a number, or missing. -/
inductive Val
  | vstr (s : String)
  | vnum (q : ℚ)
  | vnull
deriving DecidableEq

/-- Model of Python `str(v)` / pandas `astype(str)` on one cell (`NaN`
stringifies to `nan`). -/
def valStr : Val → String
  | .vstr s => s
  | .vnum q => toString q
  | .vnull => "nan"

/-- A DataFrame: column names and rows of cells. -/
structure DFrame where
  cols : List String
  rows : List (List Val)
deriving DecidableEq

/-- Cell of a row under a column name (missing column or short row reads as
`NaN`, which the source's `astype(str)` renders as `nan`). -/
def getCell (cols : List String) (r : List Val) (col : String) : Val :=
  match cols.findIdx? (fun c => c == col) with
  | some i => r.getD i .vnull
  | none => .vnull

/-- The row predicate of one active filter:
`out[col].astype(str).isin([str(v) for v in vals])`. -/
def rowKeep (cols : List String) (vals : List Val) (col : String) (r : List Val) : Bool :=
  decide (valStr (getCell cols r col) ∈ vals.map valStr)

/-- Model of `filtrar_df`: fold the filter mapping over the frame, applying
an entry only when its value list is nonempty and its column exists. -/
def filtrar_df (df : DFrame) (filtros : List (String × List Val)) : DFrame :=
  filtros.foldl
    (fun out fv =>
      if fv.2 ≠ [] ∧ fv.1 ∈ out.cols then
        ⟨out.cols, out.rows.filter (rowKeep out.cols fv.2 fv.1)⟩
      else out)
    df

/-- The combined row condition imposed by a filter mapping: every entry
with a nonempty selection over an existing column must match the row's
stringified cell. -/
def keepPred (cols : List String) (filtros : List (String × List Val))
    (r : List Val) : Prop :=
  ∀ fv ∈ filtros, fv.2 ≠ [] → fv.1 ∈ cols →
    valStr (getCell cols r fv.1) ∈ fv.2.map valStr

instance (cols : List String) (filtros : List (String × List Val)) (r : List Val) :
    Decidable (keepPred cols filtros r) := by
  unfold keepPred; infer_instance

/-! ## `build_agg` (source lines 487–508)

A metric row of `dfm`: the chosen dimension cell (`none` models `NaN`) and
the four numeric metric columns, which were `fillna(0)`-ed at source lines
379–382 and are therefore plain rationals here. -/

/-- One row of `dfm` restricted to the chosen dimension and the metrics. -/
structure Registro where
  g : Option String
  atualizado : ℚ
  empenhado : ℚ
  realizado : ℚ
  pct : ℚ
deriving DecidableEq

/-- The distinct dimension values in first-occurrence order (`groupby` with
`dropna=False` keeps the missing value as a key of its own). -/
def keysOf (rs : List Registro) : List (Option String) :=
  rs.foldl (fun acc r => if r.g ∈ acc then acc else acc ++ [r.g]) []

/-- The rows of one group. -/
def groupRows (rs : List Registro) (k : Option String) : List Registro :=
  rs.filter (fun r => r.g == k)

/-- One aggregated group before display labelling. -/
structure AggRow where
  dim : Option String
  atualizado : ℚ
  empenhado : ℚ
  realizado : ℚ
  pct : ℚ
deriving DecidableEq

/-- The `agg` dictionary of the source: sum the three monetary columns and
average the percentage column over one group. -/
def aggFor (rs : List Registro) (k : Option String) : AggRow :=
  let grp := groupRows rs k
  { dim := k
    atualizado := (grp.map Registro.atualizado).sum
    empenhado := (grp.map Registro.empenhado).sum
    realizado := (grp.map Registro.realizado).sum
    pct := (grp.map Registro.pct).sum / (grp.length : ℚ) }

/-- The grouped table: one aggregated row per distinct key. -/
def aggTable (rs : List Registro) : List AggRow :=
  (keysOf rs).map (aggFor rs)

/-- The `astype(str).replace({"": "(vazio)"})` step on the `dim` column:
pandas renders the missing key as the string `nan`. -/
def dimLabel : Option String → String
  | none => "nan"
  | some s => if s = "" then "(vazio)" else s

/-- An aggregated row after the `dim` column was stringified. -/
structure AggRowS where
  dim : String
  atualizado : ℚ
  empenhado : ℚ
  realizado : ℚ
  pct : ℚ
deriving DecidableEq

/-- Stringify the `dim` field of one aggregated row. -/
def labelRow (r : AggRow) : AggRowS :=
  ⟨dimLabel r.dim, r.atualizado, r.empenhado, r.realizado, r.pct⟩

/-- Descending order on the summed `realizado` column, the sort key of
`agg.sort_values("realizado", ascending=False)`. -/
def aggGE (a b : AggRowS) : Prop :=
  b.realizado ≤ a.realizado

instance : DecidableRel aggGE := fun a b =>
  inferInstanceAs (Decidable (b.realizado ≤ a.realizado))

instance : IsTotal AggRowS aggGE :=
  ⟨fun a b => le_total b.realizado a.realizado⟩

instance : IsTrans AggRowS aggGE :=
  ⟨fun _ _ _ h1 h2 => le_trans h2 h1⟩

/-- Model of `build_agg`: group, sum/average, stringify the dimension, sort
descending by the summed `realizado`, and truncate to the first `limite_n`
groups unless `mostrar_tudo` is set. -/
def build_agg (rs : List Registro) (mostrar_tudo : Bool) (limite_n : Nat) :
    List AggRowS :=
  let agg := (aggTable rs).map labelRow
  let agg2 := List.insertionSort aggGE agg
  if mostrar_tudo then agg2 else agg2.take limite_n

/-! ## KPI `pct_geral` (source lines 385–394) -/

/-- `total_at = float(dfm["_atualizado"].sum())`. -/
def total_atualizado (rs : List Registro) : ℚ :=
  (rs.map Registro.atualizado).sum

/-- `total_re = float(dfm["_realizado"].sum())`. -/
def total_realizado (rs : List Registro) : ℚ :=
  (rs.map Registro.realizado).sum

/-- Checked division: `none` models the `ZeroDivisionError` a bare float
division by zero would raise. -/
def safeDiv (a b : ℚ) : Option ℚ :=
  if b = 0 then none else some (a / b)

/-- Model of `pct_geral = (total_re / total_at * 100) if total_at else 0.0`,
with the division routed through `safeDiv` so that reaching a division by
zero would surface as `none`. -/
def pct_geral (rs : List Registro) : Option ℚ :=
  if total_atualizado rs ≠ 0 then
    (safeDiv (total_realizado rs) (total_atualizado rs)).map (· * 100)
  else some 0

/-! ## Metric-column detection and the missing-metric flow
(source lines 91–99, 307–310, 360–373, 593) -/

/-- Model of `norm_col`: `str(c).strip().lower()`. -/
def norm_col (c : String) : List Char :=
  lowerStr (stripChars c.toList)

/-- Model of `find_col`: the first column whose normalized name contains the
normalized needle as a substring. -/
def find_col (cols : List String) (must_contain : String) : Option String :=
  let m := lowerStr (stripChars must_contain.toList)
  cols.find? (fun c => containsSeq m (norm_col c))

/-- The `missing` list of source lines 360–365: display names of the four
metric columns `find_col` could not locate. -/
def missing (cols : List String) : List String :=
  ([("ORÇAMENTO ATUALIZADO (R$)", find_col cols "orçamento atualizado"),
    ("ORÇAMENTO EMPENHADO (R$)", find_col cols "orçamento empenhado"),
    ("ORÇAMENTO REALIZADO (R$)", find_col cols "orçamento realizado"),
    ("% REALIZADO DO ORÇAMENTO", find_col cols "% realizado")].filter
      (fun p => p.2.isNone)).map Prod.fst

/-- The four metric columns located by `find_col` (source lines 307–310),
as the Python list `[COL_ATUALIZADO, COL_EMPENHADO, COL_REALIZADO,
COL_PCT]` of line 537. -/
def metricCols (cols : List String) : List (Option String) :=
  [find_col cols "orçamento atualizado", find_col cols "orçamento empenhado",
   find_col cols "orçamento realizado", find_col cols "% realizado"]

/-- The dimension candidates of source line 537: every loaded column that
is not one of the four located metric columns. -/
def dim_all (cols : List String) : List String :=
  cols.filter fun c => decide (some c ∉ metricCols cols)

/-- What the script renders after the metric validation block:
`metric_error` is the `st.error` of line 368, `halted` the `st.stop()` of
line 373, `raw_table_shown` the `st.dataframe(df_f)` of line 593. -/
structure AppView where
  metric_error : Bool
  halted : Bool
  raw_table_shown : Bool
deriving DecidableEq

/-- Model of the control flow from the metric validation (source lines
360–373) to the raw-table render of the export tab (line 593).  With any
metric column missing, the script shows the error and calls `st.stop()`,
so nothing after line 373 renders.  Otherwise execution continues, but when
every loaded column is a metric column the dimension list `dim_all` of
line 537 is empty, tab 1's `st.selectbox` over no options yields `None`
and `build_agg(None)` raises a `KeyError` at line 488, aborting the script
before the export tab: the raw table is again not shown.  With a nonempty
`dim_all`, execution reaches the export tab and renders the raw table
(this model treats the dashboarding and charting library calls themselves
as total, the spec scoping them out as black boxes). -/
def appView (cols : List String) : AppView :=
  if missing cols ≠ [] then ⟨true, true, false⟩
  else if dim_all cols = [] then ⟨false, false, false⟩
  else ⟨false, false, true⟩

/-! ## Concrete inputs used by the witnesses and counterexamples -/

/-- A probe parser whose four attempts all fail. -/
def exParseFail : Attempt → Except String Nat := fun _ => .error "boom"

/-- A probe parser failing on the first attempt and succeeding on the
second. -/
def exParseSnd : Attempt → Except String Nat :=
  fun a => if a = ⟨';', .latin1⟩ then .ok 7 else .error "bad"

/-- A ZIP member list containing the expected CSV name. -/
def exZip : List ZipEntry :=
  [⟨"2026_OrcamentoDespesa.csv", [1, 2]⟩, ⟨"leiame.txt", [3]⟩]

/-- A ZIP member list without the expected name but with a `.CSV` member. -/
def exZipAlt : List ZipEntry :=
  [⟨"dados.txt", []⟩, ⟨"planilha.CSV", [9]⟩]

/-- A ZIP member list without any `.csv` member. -/
def exZipNoCsv : List ZipEntry :=
  [⟨"leiame.txt", [3]⟩]

/-- A server that always answers HTTP 503. -/
def exServer503 : Nat → Response := fun _ => ⟨503, []⟩

/-- A server answering 503 on the first request and 200 afterwards, so that
one retry would succeed. -/
def exServerFlaky : Nat → Response :=
  fun i => if i = 0 then ⟨503, []⟩ else ⟨200, [7]⟩

/-- Loaded columns with the three monetary metrics but without any
`% realizado` column. -/
def exCols : List String :=
  ["ORÇAMENTO ATUALIZADO (R$)", "ORÇAMENTO EMPENHADO (R$)",
   "ORÇAMENTO REALIZADO (R$)"]

/-- Loaded columns that are exactly the four metric columns, leaving no
dimension candidate. -/
def exColsFull : List String :=
  exCols ++ ["% REALIZADO DO ORÇAMENTO"]

/-- Loaded columns with the four metric columns and one dimension
column. -/
def exColsDim : List String :=
  exColsFull ++ ["Nome Órgão Superior"]

/-- One metric row with nonzero updated budget. -/
def exReg10 : Registro := ⟨none, 1, 0, 2, 0⟩

/-- A two-row frame with a single `uf` column. -/
def exDF : DFrame := ⟨["uf"], [[.vstr "SP"], [.vstr "RJ"]]⟩

/-- The spec's aggregation example: two rows in group `A` with values 10
and 5, one row with a missing group and value 3 (mapped onto the
`realizado` metric). -/
def exC2 : List Registro :=
  [⟨some "A", 0, 0, 10, 0⟩, ⟨some "A", 0, 0, 5, 0⟩, ⟨none, 0, 0, 3, 0⟩]

/-- A two-column, one-row table to export and re-parse. -/
def exT7 : Table := ⟨[['a'], ['b']], [[['1'], ['2']]]⟩

/-- What the probe reader actually produces on the export of `exT7`: one
column whose cells are the comma-joined originals. -/
def exT7read : Table := ⟨[['a', ',', 'b']], [[['1', ',', '2']]]⟩

end Orc

namespace Orc

/-! ## C1: the probe loop of `ler_csv` -/

/-- C1: for every CSV input (abstracted into the outcome of each probe
attempt), `ler_csv` tries exactly the four separator/encoding combinations
`(;, utf-8-sig)`, `(;, latin-1)`, `(,, utf-8-sig)`, `(,, latin-1)` in this
order, returns the table of the first attempt that parses, and when all four
fail it raises a single error naming the last attempt's error. -/
theorem C1_ler_csv_probe_order {α : Type} (parse : Attempt → Except String α) :
    attempts = [⟨';', .utf8sig⟩, ⟨';', .latin1⟩, ⟨',', .utf8sig⟩, ⟨',', .latin1⟩] ∧
    (∀ t, parse ⟨';', .utf8sig⟩ = .ok t → ler_csv parse = .ok t) ∧
    (∀ e1 t, parse ⟨';', .utf8sig⟩ = .error e1 → parse ⟨';', .latin1⟩ = .ok t →
      ler_csv parse = .ok t) ∧
    (∀ e1 e2 t, parse ⟨';', .utf8sig⟩ = .error e1 → parse ⟨';', .latin1⟩ = .error e2 →
      parse ⟨',', .utf8sig⟩ = .ok t → ler_csv parse = .ok t) ∧
    (∀ e1 e2 e3 t, parse ⟨';', .utf8sig⟩ = .error e1 → parse ⟨';', .latin1⟩ = .error e2 →
      parse ⟨',', .utf8sig⟩ = .error e3 → parse ⟨',', .latin1⟩ = .ok t →
      ler_csv parse = .ok t) ∧
    (∀ e1 e2 e3 e4, parse ⟨';', .utf8sig⟩ = .error e1 → parse ⟨';', .latin1⟩ = .error e2 →
      parse ⟨',', .utf8sig⟩ = .error e3 → parse ⟨',', .latin1⟩ = .error e4 →
      ler_csv parse = .error ("Falha ao ler CSV. Último erro: " ++ e4)) := by
  refine ⟨rfl, ?_, ?_, ?_, ?_, ?_⟩
  · intro t h1
    simp [ler_csv, attempts, lerCsvGo, h1]
  · intro e1 t h1 h2
    simp [ler_csv, attempts, lerCsvGo, h1, h2]
  · intro e1 e2 t h1 h2 h3
    simp [ler_csv, attempts, lerCsvGo, h1, h2, h3]
  · intro e1 e2 e3 t h1 h2 h3 h4
    simp [ler_csv, attempts, lerCsvGo, h1, h2, h3, h4]
  · intro e1 e2 e3 e4 h1 h2 h3 h4
    simp [ler_csv, attempts, lerCsvGo, lastErrStr, h1, h2, h3, h4]

/-- Witness for C1: a parser succeeding at the second attempt yields its
table, and a parser failing on all four attempts yields the final error
naming the last attempt's error. -/
theorem C1_ler_csv_probe_order_witness :
    ler_csv exParseSnd = .ok 7 ∧
    ler_csv exParseFail = .error ("Falha ao ler CSV. Último erro: " ++ "boom") :=
  ⟨(C1_ler_csv_probe_order exParseSnd).2.2.1 "bad" 7 rfl rfl,
   (C1_ler_csv_probe_order exParseFail).2.2.2.2.2 "boom" "boom" "boom" "boom"
     rfl rfl rfl rfl⟩

/-! ## C4: CSV member selection inside the ZIP -/

/-- C4: `extrair_csv_bytes` selects the member named by the expected CSV
name when present; otherwise the first member whose lowercased name ends in
`.csv`; and when the archive holds no `.csv` member (the expected name
itself ending in `.csv`), it fails with the source's error instead of
returning data. -/
theorem C4_extrair_csv_member_selection (entries : List ZipEntry) (csv_name : String) :
    (csv_name ∈ entries.map ZipEntry.name →
      ∃ bs, extrair_csv_bytes entries csv_name = .ok (bs, csv_name)) ∧
    (csv_name ∉ entries.map ZipEntry.name →
      ∀ c cs, (entries.map ZipEntry.name).filter isCsvName = c :: cs →
        ∃ bs, extrair_csv_bytes entries csv_name = .ok (bs, c)) ∧
    (isCsvName csv_name = true →
      (entries.map ZipEntry.name).filter isCsvName = [] →
      extrair_csv_bytes entries csv_name = .error "Não encontrei CSV no ZIP.") := by
  have hfind : ∀ chosen : String, chosen ∈ entries.map ZipEntry.name →
      ∃ e, entries.find? (fun e => e.name == chosen) = some e ∧ e.name = chosen := by
    intro chosen hmem
    rcases List.mem_map.1 hmem with ⟨e, he, hname⟩
    have hs : (entries.find? (fun e => e.name == chosen)).isSome := by
      rw [List.find?_isSome]
      exact ⟨e, he, by simp [hname]⟩
    rcases Option.isSome_iff_exists.1 hs with ⟨e1, he1⟩
    exact ⟨e1, he1, by simpa using List.find?_some he1⟩
  refine ⟨?_, ?_, ?_⟩
  · intro hmem
    rcases hfind csv_name hmem with ⟨e, hfe, _⟩
    refine ⟨e.content, ?_⟩
    simp only [extrair_csv_bytes, if_pos hmem]
    rw [hfe]
  · intro hmem c cs hfilter
    have hcmem : c ∈ entries.map ZipEntry.name :=
      List.mem_of_mem_filter (by rw [hfilter]; exact List.mem_cons_self c cs)
    rcases hfind c hcmem with ⟨e, hfe, _⟩
    refine ⟨e.content, ?_⟩
    simp only [extrair_csv_bytes, if_neg hmem, hfilter]
    rw [hfe]
  · intro hcsv hfilter
    have hmem : csv_name ∉ entries.map ZipEntry.name := by
      intro hmem
      have : csv_name ∈ (entries.map ZipEntry.name).filter isCsvName :=
        List.mem_filter.2 ⟨hmem, hcsv⟩
      rw [hfilter] at this
      exact absurd this (List.not_mem_nil csv_name)
    simp only [extrair_csv_bytes, if_neg hmem, hfilter]

/-- Witness for C4: the expected `2026_OrcamentoDespesa.csv` member is
selected when present; the first `.CSV` member is selected otherwise; and an
archive without `.csv` members fails. -/
theorem C4_extrair_csv_member_selection_witness :
    (∃ bs, extrair_csv_bytes exZip (csv_name_expected 2026) =
      .ok (bs, csv_name_expected 2026)) ∧
    (∃ bs, extrair_csv_bytes exZipAlt (csv_name_expected 2026) =
      .ok (bs, "planilha.CSV")) ∧
    extrair_csv_bytes exZipNoCsv (csv_name_expected 2026) =
      .error "Não encontrei CSV no ZIP." :=
  ⟨(C4_extrair_csv_member_selection exZip (csv_name_expected 2026)).1 (by decide),
   (C4_extrair_csv_member_selection exZipAlt (csv_name_expected 2026)).2.1
     (by decide) "planilha.CSV" [] (by decide),
   (C4_extrair_csv_member_selection exZipNoCsv (csv_name_expected 2026)).2.2
     (by decide) (by decide)⟩

/-! ## C5: no retry in `baixar_zip` -/

/-- C5 counterexample: the claim says transient failures such as HTTP 503
are retried with backoff up to a configured attempt maximum, an always-503
server being retried exactly `max_retries` times.  The code issues exactly
one request and raises at once: even a server that would succeed on its
second request yields the immediate 503 failure after one single attempt,
so no retry ever happens (and an always-503 server is likewise given up
after one attempt, not after a configured number of attempts). -/
theorem C5_counterexample :
    baixar_zip exServerFlaky = (.error 503, 1) ∧
    baixar_zip exServer503 = (.error 503, 1) :=
  ⟨rfl, rfl⟩

/-- C5 (amended): `baixar_zip` performs exactly one HTTP GET regardless of
the server's behavior; a response with status at least 400 is raised
immediately as an error naming that status (no retry, no backoff), and any
other response's body is returned. -/
theorem C5_baixar_zip_single_attempt (server : Nat → Response) :
    (baixar_zip server).2 = 1 ∧
    (baixar_zip server).1 =
      (if 400 ≤ (server 0).status then .error (server 0).status
       else .ok (server 0).content) := by
  unfold baixar_zip raise_for_status
  by_cases h : 400 ≤ (server 0).status <;> simp [h]

/-! ## C6: a missing metric column halts the script -/

/-- C6 counterexample: the claim says that when a metric column (here the
`% realizado` column) cannot be located, the aggregation reports the
failure and the raw table is still shown.  On columns lacking `% realizado`
the script does report the missing column, but it then calls `st.stop()`,
so the raw table of the export tab is never rendered. -/
theorem C6_counterexample :
    missing exCols = ["% REALIZADO DO ORÇAMENTO"] ∧
    (appView exCols).metric_error = true ∧
    (appView exCols).halted = true ∧
    (appView exCols).raw_table_shown = false := by
  decide

/-- C6 (amended): whenever any of the four metric columns cannot be
located, the script reports the missing columns and halts via `st.stop()`,
so the raw data table is not shown; hence the raw table can render only
when all four metric columns were found.  Finding them does not suffice:
when the located metric columns leave no dimension candidate, tab 1
crashes (`build_agg(None)`) before the export tab and the raw table is
again not shown; with some dimension column left, execution reaches the
export tab. -/
theorem C6_missing_metric_halts (cols : List String) :
    (missing cols ≠ [] → appView cols = ⟨true, true, false⟩) ∧
    ((appView cols).raw_table_shown = true → missing cols = []) ∧
    (missing cols = [] → dim_all cols = [] → appView cols = ⟨false, false, false⟩) ∧
    (missing cols = [] → dim_all cols ≠ [] → appView cols = ⟨false, false, true⟩) := by
  unfold appView
  by_cases h : missing cols = []
  · by_cases h2 : dim_all cols = [] <;> simp [h, h2]
  · simp [h]

/-- Witness for C6 (amended): columns lacking `% realizado` halt without
the raw table; columns that are exactly the four metrics leave no
dimension and crash before the raw table; columns with the four metrics
plus a dimension column reach the export tab. -/
theorem C6_missing_metric_halts_witness :
    appView exCols = ⟨true, true, false⟩ ∧
    appView exColsFull = ⟨false, false, false⟩ ∧
    appView exColsDim = ⟨false, false, true⟩ :=
  ⟨(C6_missing_metric_halts exCols).1 (by decide),
   (C6_missing_metric_halts exColsFull).2.2.1 (by decide) (by decide),
   (C6_missing_metric_halts exColsDim).2.2.2 (by decide) (by decide)⟩

/-! ## C3: the monetary-string parser -/

/-- C3: the monetary parser maps `"1.234.567,89"` to `1234567.89` and
`"R$ 10,00"` to `10.0` (stripping the `R$` prefix, no-break spaces,
thousands dots, and converting the decimal comma), an unparseable cell
coerces to null rather than raising, and the series parser keeps one entry
per input row, so no row is dropped for failing coercion. -/
theorem C3_parse_brl_number (l : List String) :
    parse_brl_number "1.234.567,89" = some (1234567.89 : ℚ) ∧
    parse_brl_number "R$ 10,00" = some (10.0 : ℚ) ∧
    parse_brl_number "abc" = none ∧
    parse_brl_number "R$ \xa01.000,25" = some (1000.25 : ℚ) ∧
    (parse_brl_number_series l).length = l.length := by
  refine ⟨?_, ?_, ?_, ?_, ?_⟩
  · have h : parseNumeral (brlClean "1.234.567,89") = some ⟨false, 1234567, 89, 2⟩ := by
      decide
    simp [parse_brl_number, to_numeric, h, ratOfNumeral]
    norm_num
  · have h : parseNumeral (brlClean "R$ 10,00") = some ⟨false, 10, 0, 2⟩ := by decide
    simp [parse_brl_number, to_numeric, h, ratOfNumeral]
    norm_num
  · have h : parseNumeral (brlClean "abc") = none := by decide
    simp [parse_brl_number, to_numeric, h]
  · have h : parseNumeral (brlClean "R$ \xa01.000,25") = some ⟨false, 1000, 25, 2⟩ := by
      decide
    simp [parse_brl_number, to_numeric, h, ratOfNumeral]
    norm_num
  · simp [parse_brl_number_series]

/-! ## C8: the percentage parser and its scale heuristic -/

/-- Folding `max` stays at most `c` exactly when the seed and every element
do. -/
theorem foldl_max_le_iff {c v : ℚ} {vs : List ℚ} :
    vs.foldl max v ≤ c ↔ v ≤ c ∧ ∀ x ∈ vs, x ≤ c := by
  induction vs generalizing v with
  | nil => simp
  | cons a vs ih =>
    simp only [List.foldl_cons, ih, max_le_iff, List.mem_cons]
    constructor
    · rintro ⟨⟨hv, ha⟩, hvs⟩
      exact ⟨hv, fun x hx => hx.elim (fun hx => hx ▸ ha) (hvs x)⟩
    · rintro ⟨hv, hall⟩
      exact ⟨⟨hv, hall a (Or.inl rfl)⟩, fun x hx => hall x (Or.inr hx)⟩

/-- A list of options whose members are all `none` reduces to the empty
list. -/
theorem reduceOption_eq_nil_of {α : Type} {L : List (Option α)}
    (h : ∀ o ∈ L, o = none) : L.reduceOption = [] := by
  induction L with
  | nil => rfl
  | cons o L ih =>
    have ho := h o (List.mem_cons_self o L)
    subst ho
    rw [List.reduceOption_cons_of_none]
    exact ih fun o hoL => h o (List.mem_cons.2 (Or.inr hoL))

/-- Members of the reduced option list of the parsed column are exactly the
parsed values. -/
theorem mem_reduceOption_map {q : ℚ} {l : List String} :
    q ∈ (l.map parse_percent_cell).reduceOption ↔
      ∃ s ∈ l, parse_percent_cell s = some q := by
  rw [List.reduceOption_mem_iff, List.mem_map]

/-- Unfolded form of `parse_percent_series`. -/
theorem parse_percent_series_def (l : List String) :
    parse_percent_series l =
      match (l.map parse_percent_cell).reduceOption with
      | [] => l.map parse_percent_cell
      | v :: vs =>
        if vs.foldl max v ≤ (1.5 : ℚ) then
          (l.map parse_percent_cell).map (Option.map (· * 100))
        else l.map parse_percent_cell := rfl

/-- C8: `parse_percent_series` coerces each cell after stripping `%`,
spaces, no-break spaces and thousands dots and converting the decimal
comma; when at least one cell parses and the maximum parsed value is at
most `1.5`, every parsed value is multiplied by `100`, otherwise the parsed
values are returned unchanged; unparseable cells are null either way, and
the series keeps one entry per input cell. -/
theorem C8_parse_percent_series (l : List String) :
    (parse_percent_series l).length = l.length ∧
    ((∀ s ∈ l, parse_percent_cell s = none) →
      parse_percent_series l = l.map parse_percent_cell) ∧
    ((∃ s ∈ l, (parse_percent_cell s).isSome) ∧
        (∀ s ∈ l, ∀ q, parse_percent_cell s = some q → q ≤ (1.5 : ℚ)) →
      parse_percent_series l = l.map fun s => (parse_percent_cell s).map (· * 100)) ∧
    ((∃ s ∈ l, ∃ q, parse_percent_cell s = some q ∧ (1.5 : ℚ) < q) →
      parse_percent_series l = l.map parse_percent_cell) ∧
    parse_percent_series ["0,5", "1,2"] = [some 50, some 120] ∧
    parse_percent_series ["abc", "50,0"] = [none, some 50] := by
  have h05 : parse_percent_cell "0,5" = some ((1 : ℚ) / 2) := by
    have h : parseNumeral (pctClean "0,5") = some ⟨false, 0, 5, 1⟩ := by decide
    simp [parse_percent_cell, to_numeric, h, ratOfNumeral]
    norm_num
  have h12 : parse_percent_cell "1,2" = some ((6 : ℚ) / 5) := by
    have h : parseNumeral (pctClean "1,2") = some ⟨false, 1, 2, 1⟩ := by decide
    simp [parse_percent_cell, to_numeric, h, ratOfNumeral]
    norm_num
  have habc : parse_percent_cell "abc" = none := by decide
  have h50 : parse_percent_cell "50,0" = some ((50 : ℚ)) := by
    have h : parseNumeral (pctClean "50,0") = some ⟨false, 50, 0, 1⟩ := by decide
    simp [parse_percent_cell, to_numeric, h, ratOfNumeral]
  refine ⟨?_, ?_, ?_, ?_, ?_, ?_⟩
  · rw [parse_percent_series_def]
    cases hred : (l.map parse_percent_cell).reduceOption with
    | nil => simp
    | cons v vs =>
      by_cases hc : vs.foldl max v ≤ (1.5 : ℚ) <;> simp [hc]
  · intro hall
    rw [parse_percent_series_def,
      reduceOption_eq_nil_of (L := l.map parse_percent_cell) (by
        intro o ho
        rcases List.mem_map.1 ho with ⟨s, hs, rfl⟩
        exact hall s hs)]
  · rintro ⟨⟨s, hs, hsome⟩, hle⟩
    rcases Option.isSome_iff_exists.1 hsome with ⟨q, hq⟩
    have hqmem : q ∈ (l.map parse_percent_cell).reduceOption :=
      mem_reduceOption_map.2 ⟨s, hs, hq⟩
    rw [parse_percent_series_def]
    cases hred : (l.map parse_percent_cell).reduceOption with
    | nil => rw [hred] at hqmem; exact absurd hqmem (List.not_mem_nil q)
    | cons v vs =>
      have hcond : vs.foldl max v ≤ (1.5 : ℚ) := by
        rw [foldl_max_le_iff]
        constructor
        · rcases mem_reduceOption_map.1 (hred ▸ List.mem_cons_self v vs) with ⟨s1, hs1, hv⟩
          exact hle s1 hs1 v hv
        · intro x hx
          rcases mem_reduceOption_map.1 (hred ▸ List.mem_cons.2 (Or.inr hx)) with
            ⟨s1, hs1, hxq⟩
          exact hle s1 hs1 x hxq
      dsimp only
      rw [if_pos hcond, List.map_map]
      rfl
  · rintro ⟨s, hs, q, hq, hgt⟩
    have hqmem : q ∈ (l.map parse_percent_cell).reduceOption :=
      mem_reduceOption_map.2 ⟨s, hs, hq⟩
    rw [parse_percent_series_def]
    cases hred : (l.map parse_percent_cell).reduceOption with
    | nil => exact absurd (hred ▸ hqmem) (List.not_mem_nil q)
    | cons v vs =>
      have hcond : ¬ vs.foldl max v ≤ (1.5 : ℚ) := by
        rw [foldl_max_le_iff]
        rintro ⟨hv, hall⟩
        rw [hred] at hqmem
        rcases List.mem_cons.1 hqmem with hqv | hqvs
        · exact absurd (hqv ▸ hv) (not_le.2 hgt)
        · exact absurd (hall q hqvs) (not_le.2 hgt)
      dsimp only
      rw [if_neg hcond]
  · rw [parse_percent_series_def]
    simp only [List.map_cons, List.map_nil, h05, h12,
      List.reduceOption_cons_of_some, List.reduceOption_nil]
    norm_num
  · rw [parse_percent_series_def]
    simp only [List.map_cons, List.map_nil, habc, h50,
      List.reduceOption_cons_of_none, List.reduceOption_cons_of_some,
      List.reduceOption_nil]
    norm_num [habc, h50]

/-- Witness for C8: a column whose only cell is unparseable takes the
no-value branch unchanged. -/
theorem C8_parse_percent_series_witness :
    parse_percent_series ["abc"] = ["abc"].map parse_percent_cell :=
  (C8_parse_percent_series ["abc"]).2.1 (by
    intro s hs
    rw [List.mem_singleton] at hs
    subst hs
    decide)

/-! ## C7: CSV export and re-parse -/

/-- Splitting never produces the empty list of fields. -/
theorem splitSep_ne_nil (sep : Char) (cs : List Char) : splitSep sep cs ≠ [] := by
  induction cs with
  | nil => simp [splitSep]
  | cons c cs ih =>
    simp only [splitSep]
    cases hs : splitSep sep cs with
    | nil => exact absurd hs ih
    | cons r rs =>
      dsimp only
      split <;> simp

/-- A separator-free text splits into itself alone. -/
theorem splitSep_not_mem {sep : Char} {cs : List Char} (h : sep ∉ cs) :
    splitSep sep cs = [cs] := by
  induction cs with
  | nil => rfl
  | cons c cs ih =>
    have hc : c ≠ sep := fun hc => h (List.mem_cons.2 (Or.inl hc.symm))
    simp only [splitSep]
    rw [ih fun hm => h (List.mem_cons.2 (Or.inr hm))]
    simp [hc]

/-- Splitting past a separator-free chunk peels it off. -/
theorem splitSep_append {sep : Char} {xs ys : List Char} (h : sep ∉ xs) :
    splitSep sep (xs ++ sep :: ys) = xs :: splitSep sep ys := by
  induction xs with
  | nil =>
    simp only [List.nil_append]
    cases hs : splitSep sep ys with
    | nil => exact absurd hs (splitSep_ne_nil sep ys)
    | cons r rs => simp [splitSep, hs]
  | cons x xs ih =>
    have hx : x ≠ sep := fun he => h (List.mem_cons.2 (Or.inl he.symm))
    have hxs : sep ∉ xs := fun hm => h (List.mem_cons.2 (Or.inr hm))
    simp only [List.cons_append, splitSep, List.append_eq]
    rw [ih hxs]
    simp [hx]

/-- Appending one empty chunk appends one separator to the joined text. -/
theorem joinSep_append_empty {sep : Char} {l : List (List Char)} (h : l ≠ []) :
    joinSep sep (l ++ [[]]) = joinSep sep l ++ [sep] := by
  induction l with
  | nil => exact absurd rfl h
  | cons x l ih =>
    cases l with
    | nil => simp [joinSep]
    | cons y l2 =>
      have h2 : joinSep sep ((y :: l2) ++ [[]]) = joinSep sep (y :: l2) ++ [sep] :=
        ih (by simp)
      calc joinSep sep ((x :: y :: l2) ++ [[]])
          = x ++ sep :: joinSep sep ((y :: l2) ++ [[]]) := by rfl
        _ = x ++ sep :: (joinSep sep (y :: l2) ++ [sep]) := by rw [h2]
        _ = (x ++ sep :: joinSep sep (y :: l2)) ++ [sep] := by simp
        _ = joinSep sep (x :: y :: l2) ++ [sep] := by rfl

/-- A character distinct from the separator and absent from every chunk is
absent from the joined text. -/
theorem not_mem_joinSep {sep c : Char} {l : List (List Char)} (hc : c ≠ sep)
    (h : ∀ x ∈ l, c ∉ x) : c ∉ joinSep sep l := by
  induction l with
  | nil => simp [joinSep]
  | cons x l ih =>
    cases l with
    | nil => simpa [joinSep] using h x (by simp)
    | cons y l2 =>
      simp only [joinSep, List.mem_append, List.mem_cons]
      rintro (hx | hcs | hm)
      · exact h x (by simp) hx
      · exact hc hcs
      · exact ih (fun z hz => h z (List.mem_cons.2 (Or.inr hz))) hm

/-- Joining a list whose first chunk is nonempty gives a nonempty text. -/
theorem joinSep_ne_nil {sep : Char} {x : List Char} {l : List (List Char)}
    (hx : x ≠ []) : joinSep sep (x :: l) ≠ [] := by
  cases l with
  | nil => simpa [joinSep] using hx
  | cons y l2 => simp [joinSep]

/-- Splitting inverts joining for separator-free chunks. -/
theorem splitSep_joinSep {sep : Char} : ∀ {l : List (List Char)}, l ≠ [] →
    (∀ x ∈ l, sep ∉ x) → splitSep sep (joinSep sep l) = l := by
  intro l
  induction l with
  | nil => intro h; exact absurd rfl h
  | cons x l ih =>
    intro _ hall
    cases l with
    | nil =>
      simp only [joinSep]
      exact splitSep_not_mem (hall x (by simp))
    | cons y l2 =>
      simp only [joinSep]
      rw [splitSep_append (hall x (by simp))]
      rw [ih (by simp) fun z hz => hall z (List.mem_cons.2 (Or.inr hz))]

/-- Padding is the identity on rows that already have the header width. -/
theorem padRow_self {w : Nat} {r : List (List Char)} (h : r.length = w) :
    padRow w r = r := by
  simp [padRow, h, Nat.sub_self]

/-- The nonblank lines of the exported text are exactly the CSV lines. -/
theorem to_csv_lines (t : Table) (h : cleanTable t) :
    (splitSep '\n' (to_csv t)).filter (fun l => !l.isEmpty) = csvLines t := by
  obtain ⟨hhne, hhc, hrows⟩ := h
  have hlinenn : ∀ line ∈ csvLines t, '\n' ∉ line := by
    intro line hline
    rcases List.mem_map.1 hline with ⟨cells, hcells, rfl⟩
    refine not_mem_joinSep (by decide) ?_
    intro x hx
    rcases List.mem_cons.1 hcells with hh | hr
    · exact ((hhc x (hh ▸ hx)).2.2.2)
    · exact ((hrows cells hr).2 x hx).2.2.2
  have hlinene : ∀ line ∈ csvLines t, line ≠ [] := by
    intro line hline
    rcases List.mem_map.1 hline with ⟨cells, hcells, rfl⟩
    rcases List.mem_cons.1 hcells with hh | hr
    · subst hh
      rcases List.exists_cons_of_ne_nil hhne with ⟨c, cs, hc2⟩
      rw [hc2]
      exact joinSep_ne_nil ((hhc c (by rw [hc2]; exact List.mem_cons_self c cs)).1)
    · have hlen := (hrows cells hr).1
      have hne2 : cells ≠ [] := by
        intro hnil
        rw [hnil] at hlen
        simp only [List.length_nil] at hlen
        exact (Nat.pos_iff_ne_zero.1 (List.length_pos.2 hhne)) hlen.symm
      rcases List.exists_cons_of_ne_nil hne2 with ⟨c, cs, hc2⟩
      rw [hc2]
      exact joinSep_ne_nil
        (((hrows cells hr).2 c (by rw [hc2]; exact List.mem_cons_self c cs)).1)
  have hsplit : splitSep '\n' (to_csv t) = csvLines t ++ [[]] := by
    rw [to_csv, ← joinSep_append_empty (by simp [csvLines])]
    refine splitSep_joinSep (by simp [csvLines]) ?_
    intro x hx
    rcases List.mem_append.1 hx with hx | hx
    · exact hlinenn x hx
    · rw [List.mem_singleton.1 hx]
      exact List.not_mem_nil _
  rw [hsplit, List.filter_append]
  rw [List.filter_eq_self.2 (by
    intro line hline
    simpa using hlinene line hline)]
  simp

/-- C7 counterexample: the claim says re-parsing an export with the
reader's own delimiter/encoding probing reproduces the field values.  The
export joins cells with commas, but the reader's first probe uses the
semicolon separator and succeeds (a comma-only text has consistent
one-field lines), so the reader returns a one-column table whose cells are
the comma-joined originals: the row count survives but the field values do
not. -/
theorem C7_counterexample :
    ler_csv_df (to_csv exT7) = .ok exT7read ∧
    exT7read.rows ≠ exT7.rows ∧
    exT7read.rows.length = exT7.rows.length := by
  refine ⟨rfl, by decide, rfl⟩

/-- C7 (amended): for a table of nonempty cells free of comma, semicolon
and newline characters and with rows of the header's width, re-parsing the
export with the export's own comma separator reproduces the table exactly;
re-parsing it through the probing reader `ler_csv` instead succeeds at the
first (semicolon) attempt with a one-column table that preserves the row
count but joins each row's fields into one cell. -/
theorem C7_roundtrip_amended (t : Table) (h : cleanTable t) :
    read_csv ',' (to_csv t) = .ok t ∧
    ler_csv_df (to_csv t) =
      .ok ⟨[joinSep ',' t.header], t.rows.map (fun r => [joinSep ',' r])⟩ ∧
    (∀ t2, ler_csv_df (to_csv t) = .ok t2 → t2.rows.length = t.rows.length) := by
  have hlines := to_csv_lines t h
  obtain ⟨hhne, hhc, hrows⟩ := h
  have hlines2 : (splitSep '\n' (to_csv t)).filter (fun l => !l.isEmpty) =
      joinSep ',' t.header :: t.rows.map (joinSep ',') := by
    rw [hlines, csvLines, List.map_cons]
  have hsem : read_csv ';' (to_csv t) =
      .ok ⟨[joinSep ',' t.header], t.rows.map (fun r => [joinSep ',' r])⟩ := by
    rw [read_csv, hlines2]
    have hheadsplit : splitSep ';' (joinSep ',' t.header) = [joinSep ',' t.header] :=
      splitSep_not_mem (not_mem_joinSep (by decide)
        fun x hx => (hhc x hx).2.2.1)
    have hrowsplit : (t.rows.map (joinSep ',')).map (splitSep ';') =
        t.rows.map (fun r => [joinSep ',' r]) := by
      rw [List.map_map]
      refine List.map_congr_left fun r hr => ?_
      exact splitSep_not_mem (not_mem_joinSep (by decide)
        fun x hx => ((hrows r hr).2 x hx).2.2.1)
    dsimp only
    rw [hheadsplit, hrowsplit]
    rw [if_pos (List.all_eq_true.2 (by
      intro r hr
      rcases List.mem_map.1 hr with ⟨r0, _, rfl⟩
      simp))]
    have hpad : (t.rows.map (fun r => [joinSep ',' r])).map
        (padRow ([joinSep ',' t.header] : List (List Char)).length) =
        t.rows.map (fun r => [joinSep ',' r]) := by
      rw [List.map_map]
      refine List.map_congr_left fun r hr => ?_
      exact padRow_self rfl
    rw [hpad]
  refine ⟨?_, ?_, ?_⟩
  · rw [read_csv, hlines2]
    have hheadsplit : splitSep ',' (joinSep ',' t.header) = t.header :=
      splitSep_joinSep hhne fun x hx => (hhc x hx).2.1
    have hrowsplit : (t.rows.map (joinSep ',')).map (splitSep ',') = t.rows := by
      rw [List.map_map]
      have : ∀ r ∈ t.rows, splitSep ',' (joinSep ',' r) = r := by
        intro r hr
        refine splitSep_joinSep ?_ fun x hx => ((hrows r hr).2 x hx).2.1
        intro hnil
        have hlen := (hrows r hr).1
        rw [hnil] at hlen
        simp only [List.length_nil] at hlen
        cases hhd : t.header with
        | nil => exact absurd hhd hhne
        | cons c cs => rw [hhd] at hlen; simp at hlen
      calc t.rows.map (splitSep ',' ∘ joinSep ',')
          = t.rows.map id := List.map_congr_left fun r hr => this r hr
        _ = t.rows := List.map_id t.rows
    dsimp only
    rw [hheadsplit, hrowsplit]
    rw [if_pos (List.all_eq_true.2 (by
      intro r hr
      exact decide_eq_true (Nat.le_of_eq (hrows r hr).1)))]
    have hpad : t.rows.map (padRow t.header.length) = t.rows := by
      calc t.rows.map (padRow t.header.length)
          = t.rows.map id := List.map_congr_left fun r hr => padRow_self (hrows r hr).1
        _ = t.rows := List.map_id t.rows
    rw [hpad]
  · have h1 : decodeAttempt (to_csv t) ⟨';', .utf8sig⟩ =
        .ok ⟨[joinSep ',' t.header], t.rows.map (fun r => [joinSep ',' r])⟩ := hsem
    simp [ler_csv_df, ler_csv, attempts, lerCsvGo, h1]
  · intro t2 ht2
    have h1 : decodeAttempt (to_csv t) ⟨';', .utf8sig⟩ =
        .ok ⟨[joinSep ',' t.header], t.rows.map (fun r => [joinSep ',' r])⟩ := hsem
    simp only [ler_csv_df, ler_csv, attempts, lerCsvGo, h1, Except.ok.injEq] at ht2
    rw [← ht2]
    simp

/-- Witness for C7 (amended): on the concrete table `exT7`, re-parsing with
the export's comma separator reproduces the table, while the probing reader
returns the one-column collapse. -/
theorem C7_roundtrip_amended_witness :
    read_csv ',' (to_csv exT7) = .ok exT7 ∧
    ler_csv_df (to_csv exT7) =
      .ok ⟨[joinSep ',' exT7.header], exT7.rows.map (fun r => [joinSep ',' r])⟩ :=
  ⟨(C7_roundtrip_amended exT7 (by decide)).1,
   (C7_roundtrip_amended exT7 (by decide)).2.1⟩

/-! ## C9: row filtering -/

/-- Boolean product form of `decide` over a conjunction. -/
theorem decide_and_eq (p q : Prop) [Decidable p] [Decidable q] :
    decide (p ∧ q) = (decide p && decide q) := by
  by_cases hp : p <;> by_cases hq : q <;> simp [hp, hq]

/-- `filtrar_df` filters the rows by the combined condition of all active
filter entries and leaves the columns unchanged. -/
theorem filtrar_df_eq (cols : List String) (rows : List (List Val))
    (filtros : List (String × List Val)) :
    filtrar_df ⟨cols, rows⟩ filtros =
      ⟨cols, rows.filter fun r => decide (keepPred cols filtros r)⟩ := by
  induction filtros generalizing rows with
  | nil =>
    simp [filtrar_df, keepPred]
  | cons fv rest ih =>
    rw [show filtrar_df ⟨cols, rows⟩ (fv :: rest) =
        filtrar_df
          (if fv.2 ≠ [] ∧ fv.1 ∈ cols then
            ⟨cols, rows.filter (rowKeep cols fv.2 fv.1)⟩
          else ⟨cols, rows⟩) rest from rfl]
    by_cases h : fv.2 ≠ [] ∧ fv.1 ∈ cols
    · rw [if_pos h, ih, List.filter_filter]
      congr 1
      refine List.filter_congr fun r _ => ?_
      have hiff : keepPred cols (fv :: rest) r ↔
          (keepPred cols rest r ∧ valStr (getCell cols r fv.1) ∈ fv.2.map valStr) := by
        unfold keepPred
        rw [List.forall_mem_cons]
        constructor
        · rintro ⟨hP, hrest⟩
          exact ⟨hrest, hP h.1 h.2⟩
        · rintro ⟨hrest, hm⟩
          exact ⟨fun _ _ => hm, hrest⟩
      calc (decide (keepPred cols rest r) && rowKeep cols fv.2 fv.1 r)
          = decide (keepPred cols rest r ∧ valStr (getCell cols r fv.1) ∈ fv.2.map valStr) := by
            rw [decide_and_eq]; rfl
        _ = decide (keepPred cols (fv :: rest) r) := (decide_eq_decide.2 hiff).symm
    · rw [if_neg h, ih]
      congr 1
      refine List.filter_congr fun r _ => ?_
      refine (decide_eq_decide.2 ?_).symm
      unfold keepPred
      rw [List.forall_mem_cons]
      rw [not_and_or, not_not] at h
      constructor
      · rintro ⟨_, hrest⟩
        exact hrest
      · intro hrest
        refine ⟨?_, hrest⟩
        rcases h with h | h
        · intro hne
          exact absurd h hne
        · intro _ hcol
          exact absurd hcol h

/-- C9: filtering returns a row-subset of the input frame with the columns
untouched; the empty mapping is the identity; an entry with an empty value
list or an absent column has no effect; and a row survives exactly when,
for every active entry, its stringified cell under that entry's column is
among the stringified selected values. -/
theorem C9_filtrar_df_subset (df : DFrame) (filtros : List (String × List Val)) :
    (filtrar_df df filtros).cols = df.cols ∧
    (filtrar_df df filtros).rows.Sublist df.rows ∧
    filtrar_df df [] = df ∧
    (∀ fv rest, (fv.2 = [] ∨ fv.1 ∉ df.cols) →
      filtrar_df df (fv :: rest) = filtrar_df df rest) ∧
    (∀ r, r ∈ (filtrar_df df filtros).rows ↔
      r ∈ df.rows ∧ ∀ fv ∈ filtros, fv.2 ≠ [] → fv.1 ∈ df.cols →
        valStr (getCell df.cols r fv.1) ∈ fv.2.map valStr) := by
  obtain ⟨cols, rows⟩ := df
  refine ⟨?_, ?_, rfl, ?_, ?_⟩
  · rw [filtrar_df_eq]
  · rw [filtrar_df_eq]
    exact List.filter_sublist rows
  · intro fv rest h
    rw [show filtrar_df ⟨cols, rows⟩ (fv :: rest) =
        filtrar_df
          (if fv.2 ≠ [] ∧ fv.1 ∈ cols then
            ⟨cols, rows.filter (rowKeep cols fv.2 fv.1)⟩
          else ⟨cols, rows⟩) rest from rfl]
    rw [if_neg]
    rintro ⟨h1, h2⟩
    rcases h with h | h
    · exact h1 h
    · exact h h2
  · intro r
    rw [filtrar_df_eq]
    simp only [List.mem_filter, decide_eq_true_eq]
    exact Iff.rfl

/-- Witness for C9: a filter entry over an absent column has no effect on a
concrete frame. -/
theorem C9_filtrar_df_subset_witness :
    filtrar_df exDF [("municipio", [Val.vstr "X"])] = filtrar_df exDF [] :=
  (C9_filtrar_df_subset exDF []).2.2.2.1 ("municipio", [Val.vstr "X"]) []
    (Or.inr (by decide))

/-! ## C2: grouping and aggregation -/

/-- Membership in the key-collecting fold of `keysOf`. -/
theorem mem_keysOf_aux (rs : List Registro) (acc : List (Option String))
    (k : Option String) :
    k ∈ rs.foldl (fun acc r => if r.g ∈ acc then acc else acc ++ [r.g]) acc ↔
      k ∈ acc ∨ k ∈ rs.map Registro.g := by
  induction rs generalizing acc with
  | nil => simp
  | cons r rs ih =>
    rw [List.foldl_cons]
    by_cases h : r.g ∈ acc
    · rw [if_pos h, ih]
      simp only [List.map_cons, List.mem_cons]
      constructor
      · rintro (ha | hm)
        exacts [Or.inl ha, Or.inr (Or.inr hm)]
      · rintro (ha | heq | hm)
        exacts [Or.inl ha, Or.inl (heq ▸ h), Or.inr hm]
    · rw [if_neg h, ih]
      simp only [List.mem_append, List.mem_singleton, List.map_cons, List.mem_cons]
      tauto

/-- The collected keys are exactly the dimension values occurring in the
input, the missing value included. -/
theorem keysOf_mem_iff (rs : List Registro) (k : Option String) :
    k ∈ keysOf rs ↔ k ∈ rs.map Registro.g := by
  rw [keysOf, mem_keysOf_aux]
  simp

/-- The key-collecting fold preserves `Nodup`. -/
theorem keysOf_nodup_aux (rs : List Registro) (acc : List (Option String))
    (h : acc.Nodup) :
    (rs.foldl (fun acc r => if r.g ∈ acc then acc else acc ++ [r.g]) acc).Nodup := by
  induction rs generalizing acc with
  | nil => exact h
  | cons r rs ih =>
    rw [List.foldl_cons]
    by_cases hm : r.g ∈ acc
    · rw [if_pos hm]
      exact ih _ h
    · rw [if_neg hm]
      exact ih _ (by simp [List.nodup_append, h, hm])

/-- Each distinct key appears once in `keysOf`. -/
theorem keysOf_nodup (rs : List Registro) : (keysOf rs).Nodup :=
  keysOf_nodup_aux rs [] List.nodup_nil

/-- C2: `build_agg` groups the rows by the chosen dimension keeping the
missing value as its own key, one aggregated row per distinct key; each
group row carries the sums of the three monetary fields and the average of
the percentage field of its group; the displayed table is a permutation of
the labelled group rows sorted descending by the summed `realizado`; with
the show-all flag off the table is truncated to the first `limite_n`
entries; and on the spec's example the grouping yields
`[("A", 15), (null, 3)]`, the null group surviving with sum 3. -/
theorem C2_build_agg_grouping (rs : List Registro) (n : Nat) :
    (aggTable rs).map AggRow.dim = keysOf rs ∧
    (keysOf rs).Nodup ∧
    (∀ k : Option String, k ∈ keysOf rs ↔ k ∈ rs.map Registro.g) ∧
    (∀ row ∈ aggTable rs,
      row.atualizado = ((groupRows rs row.dim).map Registro.atualizado).sum ∧
      row.empenhado = ((groupRows rs row.dim).map Registro.empenhado).sum ∧
      row.realizado = ((groupRows rs row.dim).map Registro.realizado).sum ∧
      row.pct * ((groupRows rs row.dim).length : ℚ) =
        ((groupRows rs row.dim).map Registro.pct).sum) ∧
    (build_agg rs true n).Perm ((aggTable rs).map labelRow) ∧
    List.Sorted aggGE (build_agg rs true n) ∧
    build_agg rs false n = (build_agg rs true n).take n ∧
    (aggTable exC2).map (fun row => (row.dim, row.realizado)) =
      [(some "A", 15), (none, 3)] ∧
    (build_agg exC2 true 50).map (fun row => (row.dim, row.realizado)) =
      [("A", 15), ("nan", 3)] := by
  have hkeys : keysOf exC2 = [some "A", none] := by decide
  have hg1 : groupRows exC2 (some "A") =
      [⟨some "A", 0, 0, 10, 0⟩, ⟨some "A", 0, 0, 5, 0⟩] := by decide
  have hg2 : groupRows exC2 none = [⟨none, 0, 0, 3, 0⟩] := by decide
  refine ⟨?_, keysOf_nodup rs, keysOf_mem_iff rs, ?_, ?_, ?_, ?_, ?_, ?_⟩
  · rw [aggTable, List.map_map]
    have hcomp : AggRow.dim ∘ aggFor rs = id := funext fun k => rfl
    rw [hcomp, List.map_id]
  · intro row hrow
    rcases List.mem_map.1 hrow with ⟨k, hk, rfl⟩
    refine ⟨rfl, rfl, rfl, ?_⟩
    have hne : groupRows rs k ≠ [] := by
      rw [keysOf_mem_iff] at hk
      rcases List.mem_map.1 hk with ⟨r, hr, hrg⟩
      intro hnil
      have hmem : r ∈ groupRows rs k := List.mem_filter.2 ⟨hr, by simp [hrg]⟩
      rw [hnil] at hmem
      exact absurd hmem (List.not_mem_nil r)
    have hlen : ((groupRows rs k).length : ℚ) ≠ 0 := by
      exact_mod_cast Nat.pos_iff_ne_zero.1 (List.length_pos.2 hne)
    exact div_mul_cancel₀ _ hlen
  · exact List.perm_insertionSort aggGE _
  · exact List.sorted_insertionSort aggGE _
  · rfl
  · rw [aggTable, hkeys]
    simp [aggFor, hg1, hg2]
    norm_num
  · have hb : build_agg exC2 true 50 =
        List.insertionSort aggGE ((aggTable exC2).map labelRow) := rfl
    rw [hb, aggTable, hkeys]
    simp only [List.map_cons, List.map_nil]
    simp [List.insertionSort, List.orderedInsert, aggGE, labelRow, dimLabel,
      aggFor, hg1, hg2]
    norm_num

/-- Witness for C2: the key-membership equivalence and the group-sum
property evaluated at the group `A` of the spec's example. -/
theorem C2_build_agg_grouping_witness :
    (some "A" ∈ keysOf exC2 ↔ some "A" ∈ exC2.map Registro.g) ∧
    (aggFor exC2 (some "A")).realizado =
      ((groupRows exC2 (some "A")).map Registro.realizado).sum :=
  ⟨(C2_build_agg_grouping exC2 1).2.2.1 (some "A"),
   ((C2_build_agg_grouping exC2 1).2.2.2.1 (aggFor exC2 (some "A"))
     (List.mem_map_of_mem (aggFor exC2) (by decide))).2.2.1⟩

/-! ## C10: the overall-percentage KPI never divides by zero -/

/-- C10: `pct_geral` divides total realized by total updated budget (times
100) only under the guard that the total updated budget is nonzero, and is
defined as `0.0` when that total is zero; the checked division therefore
never reaches its division-by-zero branch, for every input table. -/
theorem C10_pct_geral_guard (rs : List Registro) :
    (pct_geral rs).isSome = true ∧
    (total_atualizado rs = 0 → pct_geral rs = some 0) ∧
    (total_atualizado rs ≠ 0 →
      pct_geral rs = some (total_realizado rs / total_atualizado rs * 100)) := by
  unfold pct_geral safeDiv
  by_cases h : total_atualizado rs = 0 <;> simp [h]

/-- Witness for C10: the empty table takes the zero branch, a table with
nonzero updated budget takes the division branch. -/
theorem C10_pct_geral_guard_witness :
    pct_geral [] = some 0 ∧
    pct_geral [exReg10] =
      some (total_realizado [exReg10] / total_atualizado [exReg10] * 100) :=
  ⟨(C10_pct_geral_guard []).2.1 (by simp [total_atualizado]),
   (C10_pct_geral_guard [exReg10]).2.2 (by simp [total_atualizado, exReg10])⟩

end Orc
